import Mathlib

/-
Verification of the synthtoy signal-processing engine.

This file gives a shallow embedding of the engine's core code:
the delay line, one-pole low-pass, recording tap, xorshift32 noise
source, square wave, scale, FIR designer, the SynthBuilder/Chain voice
assembly, the Karplus-Strong string synthesizer, the MIDI event decoder
and the note-to-frequency conversion; and it proves (or refutes)
the specified properties of those components.

Modelling conventions:
  * f32 sample arithmetic is modelled exactly over ℚ where only field
    operations occur (delay line, low-pass, scale, square wave, string
    synth, rng output mapping); f32 rounding is not modelled.
  * The FIR designer and the note-frequency map use cosf/powf, so they
    are modelled over ℝ (Real.cos, Real.rpow).
  * Code paths that panic in Rust (index out of bounds, `%= 0`) are
    modelled with Option/Except: `none` / `Except.error ()` means the
    call panics.
  * u32 state is modelled as ℕ reduced mod 2^32 at every operation that
    can overflow; the i32 reinterpretation is explicit.
-/

/-! ## Delay line (filters.rs, DelayLine) -/

structure DelayLine where
  samples : List ℚ
  pos : ℕ
  deriving DecidableEq

/-- DelayLine::new(len): zero-filled buffer of the given length, cursor 0. -/
def DelayLine.new (len : ℕ) : DelayLine :=
  ⟨List.replicate len 0, 0⟩

def DelayLine.len (d : DelayLine) : ℕ := d.samples.length

/-- DelayLine::set_len: `samples.resize(new_len, 0.)` preserves the prefix and
zero-fills, then `pos %= new_len.min(samples.len())`.  After the resize the
buffer length is exactly `new_len`, so the modulus is `new_len`; when
`new_len = 0` the Rust `%=` is a remainder by zero and panics, modelled as
`none`. -/
def DelayLine.setLen (d : DelayLine) (newLen : ℕ) : Option DelayLine :=
  let samples := d.samples.take newLen ++ List.replicate (newLen - d.samples.length) 0
  if newLen = 0 then none
  else some ⟨samples, d.pos % min newLen samples.length⟩

/-- One iteration of the DelayLine::process loop body:
`samples[pos] = s; s = samples[(pos + 1) % len]; pos = (pos + 1) % len`.
Returns the updated line and the output sample. -/
def DelayLine.step (d : DelayLine) (x : ℚ) : DelayLine × ℚ :=
  let s1 := d.samples.set d.pos x
  let p1 := (d.pos + 1) % s1.length
  (⟨s1, p1⟩, s1.getD p1 0)

/-- DelayLine::process over a whole buffer (in-place mutation modelled as
returning the rewritten buffer). -/
def DelayLine.processList (d : DelayLine) : List ℚ → DelayLine × List ℚ
  | [] => (d, [])
  | x :: rest =>
    let r := d.step x
    let rs := r.1.processList rest
    (rs.1, r.2 :: rs.2)

/-! ## Low-pass (filters.rs, LowPass) -/

structure LowPass where
  last : ℚ
  gain : ℚ
  deriving DecidableEq

/-- LowPass::new: gain is clamped to at most 0.499. -/
def LowPass.new (gain : ℚ) : LowPass :=
  ⟨0, min gain (499/1000)⟩

/-- LowPass::default = LowPass::new(0.5). -/
def LowPass.mkDefault : LowPass := LowPass.new (1/2)

/-- One iteration of LowPass::process:
`s2 = *s; *s = (last + s2) * gain; last = s2`. -/
def LowPass.step (l : LowPass) (x : ℚ) : LowPass × ℚ :=
  (⟨x, l.gain⟩, (l.last + x) * l.gain)

def LowPass.processList (l : LowPass) : List ℚ → LowPass × List ℚ
  | [] => (l, [])
  | x :: rest =>
    let r := l.step x
    let rs := r.1.processList rest
    (rs.1, r.2 :: rs.2)

/-! ## Recording tap (filters.rs, Snoop) -/

structure Snoop where
  name : String
  samples : List ℚ
  deriving DecidableEq

def Snoop.new (name : String) : Snoop := ⟨name, []⟩

/-- Snoop::process appends every observed sample to the log; the audio buffer
itself is not modified, so only the new state is returned. -/
def Snoop.processList (sn : Snoop) (buf : List ℚ) : Snoop :=
  ⟨sn.name, sn.samples ++ buf⟩

/-- Snoop::save, successful path: the payload written to the wav file is
`samples.take()`, which moves the whole log out and leaves it empty.
Returns (written sample data, snoop state after the call).  The wav
container format and I/O failure are outside this model. -/
def Snoop.save (sn : Snoop) : List ℚ × Snoop :=
  (sn.samples, ⟨sn.name, []⟩)

/-! ## Noise generator (filters.rs, Rng: xorshift32) -/

/-- Rng state update: `v ^= v << 13; v ^= v >> 17; v ^= v << 5` on u32. -/
def rngNext (v : ℕ) : ℕ :=
  let v1 := (v ^^^ (v <<< 13)) % 2 ^ 32
  let v2 := v1 ^^^ (v1 >>> 17)
  (v2 ^^^ (v2 <<< 5)) % 2 ^ 32

/-- Reinterpret a u32 bit pattern as an i32. -/
def toI32 (v : ℕ) : ℤ :=
  if v < 2 ^ 31 then (v : ℤ) else (v : ℤ) - 2 ^ 32

/-- The value Rng::next returns for (already updated) state v:
`v as i32 as f32 / i32::MAX as f32`, modelled exactly over ℚ. -/
def rngVal (v : ℕ) : ℚ :=
  (toI32 v : ℚ) / ((2 : ℚ) ^ 31 - 1)

/-- Rng::default seed. -/
def RNG_SEED : ℕ := 0xdeadbeef

/-! ## Square wave and scale (filters.rs, SquareWave / Scale) -/

/-- Truncated division remainder, matching the semantics of Rust's `%` on
floats (result has the sign of the dividend). -/
def ratTrunc (q : ℚ) : ℤ :=
  if 0 ≤ q then ⌊q⌋ else ⌈q⌉

def rustRem (a b : ℚ) : ℚ :=
  a - b * (ratTrunc (a / b) : ℚ)

structure SquareWave where
  phase_inc : ℚ
  phase : ℚ
  volume : ℚ
  deriving DecidableEq

/-- One iteration of SquareWave::process:
`*s = if phase > 0.5 { volume } else { -volume }; phase = (phase + phase_inc) % 1.0`.
The input sample is overwritten without being read. -/
def SquareWave.step (sw : SquareWave) : SquareWave × ℚ :=
  (⟨sw.phase_inc, rustRem (sw.phase + sw.phase_inc) 1, sw.volume⟩,
   if 1/2 < sw.phase then sw.volume else -sw.volume)

def SquareWave.processList (sw : SquareWave) : List ℚ → SquareWave × List ℚ
  | [] => (sw, [])
  | _ :: rest =>
    let r := sw.step
    let rs := r.1.processList rest
    (rs.1, r.2 :: rs.2)

/-! ## Filter values and voice assembly (filters.rs, SynthBuilder / Synth /
Chain / NoopFilter / Scale)

A `Filt` packages a filter's state type, its current state and its
buffer-processing function, mirroring a boxed `impl Filter` value. -/

structure Filt where
  σ : Type
  st : σ
  proc : σ → List ℚ → σ × List ℚ

/-- NoopFilter: passes the buffer through unchanged. -/
def NoopF : Filt :=
  ⟨Unit, (), fun s buf => (s, buf)⟩

/-- Scale: `*s *= self.0` for every sample; stateless. -/
def ScaleF (c : ℚ) : Filt :=
  ⟨Unit, (), fun s buf => (s, buf.map (fun x => x * c))⟩

/-- SquareWave wrapped as a Filt. -/
def SquareWaveF (sw : SquareWave) : Filt :=
  ⟨SquareWave, sw, SquareWave.processList⟩

/-- Chain::process: `self.1.process(samples); self.0.process(samples)` —
the second child (tail) runs first, then the first child (head). -/
def ChainF (h t : Filt) : Filt :=
  ⟨h.σ × t.σ, (h.st, t.st), fun s buf =>
    let rt := t.proc s.2 buf
    let rh := h.proc s.1 rt.2
    ((rh.1, rt.1), rh.2)⟩

/-- Synth::process: the raw synth runs first, then the filter chain. -/
def SynthF (s f : Filt) : Filt :=
  ⟨s.σ × f.σ, (s.st, f.st), fun st buf =>
    let rs := s.proc st.1 buf
    let rf := f.proc st.2 rs.2
    ((rs.1, rf.1), rf.2)⟩

structure SynthBuilder where
  synth : Filt
  filt : Filt

/-- SynthBuilder::new(synth) = SynthBuilder(synth, NoopFilter). -/
def SynthBuilder.new (s : Filt) : SynthBuilder := ⟨s, NoopF⟩

/-- SynthBuilder::chain: `SynthBuilder(self.0, Chain(filter, self.1))` — the
newly chained filter becomes the head of the chain. -/
def SynthBuilder.chain (b : SynthBuilder) (f : Filt) : SynthBuilder :=
  ⟨b.synth, ChainF f b.filt⟩

/-- SynthBuilder::build. -/
def SynthBuilder.build (b : SynthBuilder) : Filt :=
  SynthF b.synth b.filt

/-! ## FIR designer (filters.rs, FIR), over ℝ -/

structure FIR where
  omegas : List (ℝ × ℝ)
  freq0 : ℝ
  coeff : ℝ

/-- FIR::new(taps, freq_resp_curve): `m = taps * 2 + 1`; for n = 1..=taps
store `(H(omega_n), omega_n)` with `omega_n = n * π / m`; `freq0 = H(0)`;
`coeff = 1 / m`. -/
noncomputable def FIR.new (taps : ℕ) (curve : ℝ → ℝ) : FIR :=
  { omegas := (List.range taps).map (fun n =>
      (curve (((n + 1 : ℕ) : ℝ) * Real.pi / ((taps * 2 + 1 : ℕ) : ℝ)),
       ((n + 1 : ℕ) : ℝ) * Real.pi / ((taps * 2 + 1 : ℕ) : ℝ))),
    freq0 := curve 0,
    coeff := 1 / ((taps * 2 + 1 : ℕ) : ℝ) }

/-- FIR::process body for one sample:
`coeff * (freq0 + 2 * Σ resp * cos(omega_k * sample))`.
Note the sample VALUE is used as the phase argument. -/
noncomputable def FIR.processSample (f : FIR) (x : ℝ) : ℝ :=
  f.coeff * (f.freq0 + 2 * (f.omegas.map (fun p => p.1 * Real.cos (p.2 * x))).sum)

/-- FIR::process over a buffer; the FIR holds no mutable state. -/
noncomputable def FIR.processList (f : FIR) (buf : List ℝ) : List ℝ :=
  buf.map f.processSample

/-! ## String synthesizer (filters.rs, StringSynth) -/

def SAMPLING_FREQ : ℕ := 44100

structure StringSynth where
  delay : DelayLine
  lpf : LowPass
  snoop : Snoop
  last : ℚ
  trigger_count : ℕ
  rng : ℕ
  deriving DecidableEq

/-- StringSynth::new(depth). -/
def StringSynth.new (depth : ℕ) : StringSynth :=
  { delay := DelayLine.new depth
    lpf := LowPass.mkDefault
    snoop := Snoop.new "string.wav"
    last := 0
    trigger_count := 0
    rng := RNG_SEED }

/-- The rounded delay length StringSynth::tune requests:
`(SAMPLING_FREQ as f32 / freq).round() as usize`.  The `as usize` cast
saturates below at 0, modelled by `Int.toNat`.  (Rust rounds positive
halves up, as does `round` on ℚ; negative results saturate to 0 either
way.  The model uses exact rationals; the f32 division at 44100/freq is
not exactly representable in general but the claims are far from the
rounding boundaries.) -/
def tuneLen (freq : ℚ) : ℕ :=
  (round ((SAMPLING_FREQ : ℚ) / freq)).toNat

/-- StringSynth::tune: `delay.set_len(tuneLen freq)`; `none` means the call
panics (which `set_len` does whenever the requested length is 0). -/
def StringSynth.tune (st : StringSynth) (freq : ℚ) : Option StringSynth :=
  (st.delay.setLen (tuneLen freq)).map (fun d => { st with delay := d })

/-- The feedback-loop input chosen by StringSynth::process for the current
sample: `noise() + last` while the trigger countdown is positive, plain
`last` otherwise.  (`Rng::next` both advances the state and returns the
value of the advanced state.) -/
def ssLoopIn (st : StringSynth) : ℚ :=
  if 0 < st.trigger_count then rngVal (rngNext st.rng) + st.last else st.last

/-- One iteration of the StringSynth::process loop body: pick the loop input
(decrementing the trigger countdown and advancing the rng only in the
excited branch), push the one-sample buffer through delay line, low-pass
and snoop, store the result in `last` and emit it. -/
def StringSynth.step (st : StringSynth) : StringSynth × ℚ :=
  let st1 := if 0 < st.trigger_count then
      { st with trigger_count := st.trigger_count - 1, rng := rngNext st.rng }
    else st
  let loopIn := ssLoopIn st
  let r1 := st1.delay.processList [loopIn]
  let r2 := st1.lpf.processList r1.2
  let sn1 := st1.snoop.processList r2.2
  let out := r2.2.headD 0
  ({ st1 with delay := r1.1, lpf := r2.1, snoop := sn1, last := out }, out)

/-- StringSynth::process over a whole output buffer.  The incoming buffer
contents are never read (each slot is overwritten with `last`), so only
its length matters. -/
def StringSynth.processList (st : StringSynth) : List ℚ → StringSynth × List ℚ
  | [] => (st, [])
  | _ :: rest =>
    let r := st.step
    let rs := r.1.processList rest
    (rs.1, r.2 :: rs.2)

/-- The control operations main.rs applies to the live voice under the device
lock: `tune(freq)`, the trigger (`trigger_count = 50`), and a device pull of
a buffer of a given size. -/
inductive SynthCmd
  | tune (freq : ℚ)
  | trigger
  | processBuf (n : ℕ)

/-- Run a sequence of control operations against a voice, collecting every
produced output sample; `none` means some `tune` call panicked. -/
def StringSynth.runCmds (st : StringSynth) : List SynthCmd → Option (StringSynth × List ℚ)
  | [] => some (st, [])
  | SynthCmd.tune f :: rest =>
    match st.tune f with
    | none => none
    | some st1 => st1.runCmds rest
  | SynthCmd.trigger :: rest =>
    StringSynth.runCmds { st with trigger_count := 50 } rest
  | SynthCmd.processBuf n :: rest =>
    let r := st.processList (List.replicate n 0)
    match r.1.runCmds rest with
    | none => none
    | some p => some (p.1, r.2 ++ p.2)

/-! ## Note to frequency (note.rs) -/

/-- Note::ratio for a semitone offset: `(2^(1/12))^semitones` (powf). -/
noncomputable def Note.pitchFactor (semitones : ℕ) : ℝ :=
  ((2 : ℝ) ^ ((1 : ℝ) / 12)) ^ (semitones : ℝ)

/-- Note::freq: `440 * 2^(octave - 4) * ratio`. -/
noncomputable def Note.freq (semitones octave : ℕ) : ℝ :=
  440 * (2 : ℝ) ^ ((octave : ℝ) - 4) * Note.pitchFactor semitones

/-- midi_note_to_freq: notes 0..=21 clamp to Note::A.freq(0); otherwise the
offset from MIDI note 21 is split into pitch class (mod 12) and octave
(div 12). -/
noncomputable def midiNoteToFreq (note : ℕ) : ℝ :=
  if note ≤ 21 then Note.freq 0 0
  else Note.freq ((note - 21) % 12) ((note - 21) / 12)

/-! ## MIDI event decoding (midi.rs / main.rs, parse_midi) -/

inductive MidiEventInner
  | Down (velocity note : ℕ)
  | Up (velocity note : ℕ)
  | KeyPressure (key pressure : ℕ)
  deriving DecidableEq

structure MidiEvent where
  timestamp : ℕ
  channel : ℕ
  inner : MidiEventInner
  deriving DecidableEq

/-- parse_midi: reads `midi[0]`, takes the high nibble as command and the low
nibble as channel; commands 0x8/0x9/0xA read `midi[1]`/`midi[2]` and build an
event, every other command yields no event.  `Except.error ()` models the
out-of-bounds panic of a failed index. -/
def parseMidi (timestamp : ℕ) (midi : List ℕ) : Except Unit (Option MidiEvent) :=
  match midi.get? 0 with
  | none => Except.error ()
  | some byte0 =>
    let cmd := (byte0 &&& 0xf0) >>> 4
    let channel := byte0 &&& 0xf
    if cmd = 8 then
      match midi.get? 2, midi.get? 1 with
      | some b2, some b1 => Except.ok (some ⟨timestamp, channel, MidiEventInner.Up b2 b1⟩)
      | _, _ => Except.error ()
    else if cmd = 9 then
      match midi.get? 2, midi.get? 1 with
      | some b2, some b1 => Except.ok (some ⟨timestamp, channel, MidiEventInner.Down b2 b1⟩)
      | _, _ => Except.error ()
    else if cmd = 10 then
      match midi.get? 1, midi.get? 2 with
      | some b1, some b2 => Except.ok (some ⟨timestamp, channel, MidiEventInner.KeyPressure b1 b2⟩)
      | _, _ => Except.error ()
    else Except.ok none

/-- The virtual pending-output queue of a delay line: the n-1 buffer slots
that will be read out before the first freshly written sample comes back
around. -/
def dlQueue (d : DelayLine) : List ℚ :=
  (List.range (d.samples.length - 1)).map
    (fun i => d.samples.getD ((d.pos + 1 + i) % d.samples.length) 0)

/-! ## Helper lemmas -/

theorem getD_set_self_q (l : List ℚ) (i : ℕ) (x : ℚ) (h : i < l.length) :
    (l.set i x).getD i 0 = x := by
  simp [List.getD_eq_getElem?_getD, List.getElem?_set_self h]

theorem getD_set_ne_q (l : List ℚ) (i j : ℕ) (x : ℚ) (h : i ≠ j) :
    (l.set i x).getD j 0 = l.getD j 0 := by
  simp [List.getD_eq_getElem?_getD, List.getElem?_set_ne h]

/-- Advancing a cursor by 1 ≤ k ≤ n-1 positions around an n-slot ring never
returns to the starting slot. -/
theorem mod_shift_ne (n pos k : ℕ) (hp : pos < n) (hk1 : 1 ≤ k) (hk2 : k ≤ n - 1) :
    (pos + k) % n ≠ pos := by
  intro h
  rcases Nat.lt_or_ge (pos + k) n with hlt | hge
  · rw [Nat.mod_eq_of_lt hlt] at h; omega
  · have h3 : pos + k - n < n := by omega
    rw [Nat.mod_eq_sub_mod hge, Nat.mod_eq_of_lt h3] at h
    omega

theorem dlQueue_new (n : ℕ) : dlQueue (DelayLine.new n) = List.replicate (n - 1) 0 := by
  unfold dlQueue DelayLine.new
  simp only [List.length_replicate]
  have h : ∀ i : ℕ, (List.replicate n (0 : ℚ)).getD i 0 = 0 := by
    intro i
    simp [List.getD_eq_getElem?_getD, List.getElem?_replicate]
    split <;> rfl
  calc (List.range (n - 1)).map (fun i => (List.replicate n (0:ℚ)).getD ((0 + 1 + i) % n) 0)
      = (List.range (n - 1)).map (fun _ => (0:ℚ)) := by
        exact List.map_congr_left (fun i _ => h _)
    _ = List.replicate (n - 1) 0 := by
        rw [List.map_const']; simp

theorem DelayLine.step_pos_lt (d : DelayLine) (x : ℚ) (hp : d.pos < d.samples.length) :
    (d.step x).1.pos < (d.step x).1.samples.length := by
  simp only [DelayLine.step, List.length_set]
  exact Nat.mod_lt _ (by omega)

theorem DelayLine.step_len (d : DelayLine) (x : ℚ) :
    (d.step x).1.samples.length = d.samples.length := by
  simp [DelayLine.step]

theorem DelayLine.step_out (d : DelayLine) (x : ℚ) (hp : d.pos < d.samples.length) :
    (d.step x).2 = (dlQueue d ++ [x]).headD 0 := by
  have hn : 0 < d.samples.length := by omega
  by_cases h1 : d.samples.length = 1
  · have hpos : d.pos = 0 := by omega
    have h0 : (0 : ℕ) < d.samples.length := by omega
    unfold DelayLine.step dlQueue
    simp only [List.length_set, h1, hpos]
    norm_num
    simp [List.getD_eq_getElem?_getD, List.getElem?_set_self h0]
  · have h2 : 2 ≤ d.samples.length := by omega
    obtain ⟨m, hm⟩ : ∃ m, d.samples.length - 1 = m + 1 := ⟨d.samples.length - 2, by omega⟩
    have hne : (d.pos + 1) % d.samples.length ≠ d.pos :=
      mod_shift_ne _ _ _ hp (by omega) (by omega)
    unfold DelayLine.step dlQueue
    simp only [List.length_set, hm, List.range_succ_eq_map, List.map_cons]
    rw [List.cons_append, List.headD_cons]
    rw [getD_set_ne_q d.samples d.pos _ x (fun h => hne h.symm)]

theorem DelayLine.step_queue (d : DelayLine) (x : ℚ) (hp : d.pos < d.samples.length) :
    dlQueue (d.step x).1 = (dlQueue d ++ [x]).tail := by
  have hn : 0 < d.samples.length := by omega
  by_cases h1 : d.samples.length = 1
  · have hpos : d.pos = 0 := by omega
    unfold DelayLine.step dlQueue
    simp [List.length_set, h1, hpos]
  · have h2 : 2 ≤ d.samples.length := by omega
    obtain ⟨m, hm⟩ : ∃ m, d.samples.length - 1 = m + 1 := ⟨d.samples.length - 2, by omega⟩
    have hmn : m + 2 = d.samples.length := by omega
    unfold DelayLine.step dlQueue
    simp only [List.length_set, hm]
    -- right side: expose the head of the queue, then the tail
    conv_rhs => rw [List.range_succ_eq_map, List.map_cons, List.cons_append, List.tail_cons]
    -- left side: split off the final ring slot, which holds the fresh sample
    rw [List.range_succ, List.map_append, List.map_map, List.map_singleton]
    have hlast : ((d.pos + 1) % d.samples.length + 1 + m) % d.samples.length = d.pos := by
      rw [Nat.add_assoc, Nat.mod_add_mod]
      have : d.pos + 1 + (1 + m) = d.pos + d.samples.length := by omega
      rw [this, Nat.add_mod_right, Nat.mod_eq_of_lt hp]
    rw [hlast, getD_set_self_q d.samples d.pos x hp]
    congr 1
    apply List.map_congr_left
    intro i hi
    have him : i < m := List.mem_range.mp hi
    have hidx : (d.pos + 1) % d.samples.length + 1 + i = (d.pos + 1) % d.samples.length + (1 + i) := by
      omega
    have hmod : ((d.pos + 1) % d.samples.length + (1 + i)) % d.samples.length
        = (d.pos + (2 + i)) % d.samples.length := by
      rw [Nat.mod_add_mod]
      congr 1
      omega
    have hne : (d.pos + (2 + i)) % d.samples.length ≠ d.pos :=
      mod_shift_ne _ _ _ hp (by omega) (by omega)
    simp only [Function.comp, hidx, hmod]
    rw [getD_set_ne_q d.samples d.pos _ x (fun h => hne h.symm)]
    congr 2
    omega

theorem take_append_cons_headD (L r : List ℚ) (h : L ≠ []) :
    (L ++ r).take (r.length + 1) = L.headD 0 :: (L.tail ++ r).take r.length := by
  cases L with
  | nil => exact absurd rfl h
  | cons a t => simp [List.take_succ_cons]

theorem delay_processList_out (xs : List ℚ) :
    ∀ d : DelayLine, d.pos < d.samples.length →
      (d.processList xs).2 = (dlQueue d ++ xs).take xs.length := by
  induction xs with
  | nil => intro d _; simp [DelayLine.processList]
  | cons x rest ih =>
    intro d hp
    simp only [DelayLine.processList]
    rw [ih _ (DelayLine.step_pos_lt d x hp), DelayLine.step_out d x hp,
      DelayLine.step_queue d x hp]
    have hsplit : dlQueue d ++ x :: rest = (dlQueue d ++ [x]) ++ rest := by simp
    rw [List.length_cons, hsplit,
      take_append_cons_headD (dlQueue d ++ [x]) rest (by simp)]

/-! ## Claim C3 -/

/-- Claim C3 (counterexample): the claim says a zero-filled delay line of
length n delays the stream by exactly n samples, so with n = 2 the sample
s0 = 5 fed at index 0 should first appear at output index 2, giving
[0, 0, 5].  The code actually produces [0, 5, 0]: the delay is n - 1. -/
theorem delay_line_delay_counterexample :
    ((DelayLine.new 2).processList [5, 0, 0]).2 = [0, 5, 0] ∧
      ([0, 5, 0] : List ℚ) ≠ [0, 0, 5] := by
  decide

/-- Claim C3 (corrected): for every n ≥ 1, a fresh delay line of length n
(zero-filled, cursor 0) delays its input stream by exactly n - 1 samples:
the output stream is n - 1 zeros followed by the input samples in order,
truncated to the buffer length. -/
theorem delay_line_delays_by_len_minus_one (n : ℕ) (xs : List ℚ) (h : 1 ≤ n) :
    ((DelayLine.new n).processList xs).2 =
      (List.replicate (n - 1) 0 ++ xs).take xs.length := by
  rw [delay_processList_out xs (DelayLine.new n)
    (by simp only [DelayLine.new, List.length_replicate]; omega), dlQueue_new]

/-- Witness for C3's corrected theorem at n = 2 and input [5, 0, 0]. -/
theorem delay_line_delays_by_len_minus_one_witness :
    ((DelayLine.new 2).processList [5, 0, 0]).2 =
      (List.replicate (2 - 1) 0 ++ [5, 0, 0]).take 3 :=
  delay_line_delays_by_len_minus_one 2 [5, 0, 0] (by decide)

/-! ## Claim C1 -/

/-- Claim C1 (counterexample): the claim says tune clamps the delay length to
at least 1 and never aborts; but tune(100000) requests length
round(44100 / 100000) = 0, and set_len(0) executes `pos %= 0`, which
panics — modelled as `none`. -/
theorem tune_aborts_on_high_frequency :
    (StringSynth.new 500).tune 100000 = none := by
  have h : tuneLen 100000 = 0 := by
    have hr : round ((SAMPLING_FREQ : ℚ) / 100000) = 0 := by
      rw [show ((SAMPLING_FREQ : ℚ) / 100000) = 441 / 1000 by norm_num [SAMPLING_FREQ]]
      rw [round_eq]
      rw [show (441 / 1000 + 1 / 2 : ℚ) = 941 / 1000 by norm_num]
      rw [Int.floor_eq_iff]
      norm_num
    simp [tuneLen, hr]
  simp [StringSynth.tune, DelayLine.setLen, h]

/-- Claim C1 (corrected): StringSynth::tune sets the delay length to
round(sampling_rate / frequency), saturated below at 0 by the usize cast,
with NO clamp to ≥ 1: the call panics (set_len(0) evaluates `pos %= 0`)
exactly when that rounded value is 0 — e.g. for negative frequencies or
frequencies above twice the sampling rate — and otherwise succeeds,
leaving the delay line with exactly the rounded length. -/
theorem tune_len_characterization (st : StringSynth) (freq : ℚ) :
    ((st.tune freq).isNone ↔ tuneLen freq = 0) ∧
      (st.tune freq).map (fun s => s.delay.samples.length) =
        (if tuneLen freq = 0 then none else some (tuneLen freq)) := by
  by_cases h : tuneLen freq = 0
  · simp [StringSynth.tune, DelayLine.setLen, h]
  · constructor
    · simp [StringSynth.tune, DelayLine.setLen, h]
    · simp only [StringSynth.tune, DelayLine.setLen, if_neg h, Option.map_map, Option.map_some,
        if_neg h]
      simp only [Option.map, Function.comp]
      congr 1
      simp only [List.length_append, List.length_take, List.length_replicate]
      omega

/-! ## Claim C2 -/

/-- Claim C2 (counterexample): with A = Scale(2) and B = a SquareWave (which
overwrites its input, here emitting volume 1), the voice
new(Noop).chain(A).chain(B) run on buffer [0] outputs [1] — the square wave
ran last — whereas the claim's composition A(B(x)) would give [2]. -/
theorem chain_order_counterexample :
    ((((SynthBuilder.new NoopF).chain (ScaleF 2)).chain
        (SquareWaveF ⟨0, 7/10, 1⟩)).build.proc
      ((((SynthBuilder.new NoopF).chain (ScaleF 2)).chain
        (SquareWaveF ⟨0, 7/10, 1⟩)).build).st [0]).2 = [1] ∧
    ((ScaleF 2).proc () ((SquareWaveF ⟨0, 7/10, 1⟩).proc ⟨0, 7/10, 1⟩ [0]).2).2 = [2] ∧
    ([1] : List ℚ) ≠ [2] := by
  refine ⟨?_, ?_, by norm_num⟩ <;>
  · simp only [SynthBuilder.new, SynthBuilder.chain, SynthBuilder.build, SynthF, ChainF,
      NoopF, ScaleF, SquareWaveF, SquareWave.processList, SquareWave.step, List.map]
    norm_num

/-- Claim C2 (corrected): for a voice assembled as chain(A).chain(B) and
built, processing a buffer applies A to the synth's raw output first and B
second, so each final sample is B(A(x)): the most recently chained filter
runs farthest from the synth's raw output, immediately before the final
output. -/
theorem chain_applies_in_chaining_order (S A B : Filt) (buf : List ℚ) :
    ((((SynthBuilder.new S).chain A).chain B).build.proc
        ((((SynthBuilder.new S).chain A).chain B).build).st buf).2 =
      (B.proc B.st ((A.proc A.st ((S.proc S.st buf).2)).2)).2 :=
  rfl

/-! ## Claim C9 -/

/-- Snoop state after observing a sequence of buffers. -/
def snoopAfter (sn : Snoop) (bufs : List (List ℚ)) : Snoop :=
  bufs.foldl Snoop.processList sn

theorem snoopAfter_samples (bufs : List (List ℚ)) :
    ∀ sn : Snoop, (snoopAfter sn bufs).samples = sn.samples ++ bufs.flatten := by
  induction bufs with
  | nil => intro sn; simp [snoopAfter]
  | cons b rest ih =>
    intro sn
    simp only [snoopAfter, List.foldl_cons, List.flatten]
    rw [show List.foldl Snoop.processList (sn.processList b) rest
        = snoopAfter (sn.processList b) rest from rfl, ih]
    simp [Snoop.processList]

/-- Claim C9 (confirmed): after any sequence of process calls, save() writes
the entire accumulated log and empties it, so an immediately following
save() writes an empty sample set. -/
theorem snoop_save_drains (sn : Snoop) (bufs : List (List ℚ)) :
    ((snoopAfter sn bufs).save).1 = sn.samples ++ bufs.flatten ∧
      ((snoopAfter sn bufs).save).2.samples = [] ∧
      (((snoopAfter sn bufs).save).2.save).1 = [] := by
  refine ⟨?_, rfl, rfl⟩
  rw [show ((snoopAfter sn bufs).save).1 = (snoopAfter sn bufs).samples from rfl,
    snoopAfter_samples]

/-! ## Claim C5 -/

/-- Claim C5 (confirmed): every sample StringSynth::process produces is
obtained by feeding the loop input — noise plus last output while the
trigger countdown is positive (decrementing it by exactly one), the last
output alone when it is zero — through the delay line and then the
low-pass; the result is stored in `last` and emitted as the output
sample, and processing a buffer repeats exactly this per-sample step. -/
theorem string_synth_step_spec (st : StringSynth) :
    (st.step).2 = (st.lpf.step ((st.delay.step (ssLoopIn st)).2)).2
    ∧ (st.step).1.last = (st.step).2
    ∧ (st.step).1.delay = (st.delay.step (ssLoopIn st)).1
    ∧ (st.step).1.lpf = (st.lpf.step ((st.delay.step (ssLoopIn st)).2)).1
    ∧ (st.step).1.trigger_count =
        (if 0 < st.trigger_count then st.trigger_count - 1 else st.trigger_count)
    ∧ (∀ (x : ℚ) (rest : List ℚ),
        st.processList (x :: rest) =
          (((st.step).1.processList rest).1,
            (st.step).2 :: ((st.step).1.processList rest).2)) := by
  by_cases h : 0 < st.trigger_count <;>
    simp [StringSynth.step, StringSynth.processList, DelayLine.processList,
      LowPass.processList, ssLoopIn, h]

/-! ## Claim C6 -/

/-- Claim C6 (confirmed): the string synthesizer is deterministic — two runs
from the same initial state (same depth, same rng seed) under the same
sequence of tune/trigger/buffer-pull operations produce identical output
sample sequences.  In this embedding every effect (including the xorshift32
noise source) is explicit state, so equal seeds and equal command lists
give equal runs. -/
theorem string_synth_deterministic (depth seed1 seed2 : ℕ)
    (cmds1 cmds2 : List SynthCmd) (h1 : seed1 = seed2) (h2 : cmds1 = cmds2) :
    StringSynth.runCmds { StringSynth.new depth with rng := seed1 } cmds1 =
      StringSynth.runCmds { StringSynth.new depth with rng := seed2 } cmds2 := by
  subst h1; subst h2; rfl

/-- Witness for C6 at the default seed and a concrete command sequence. -/
theorem string_synth_deterministic_witness :
    StringSynth.runCmds { StringSynth.new 500 with rng := 0xdeadbeef }
        [SynthCmd.tune 441, SynthCmd.trigger, SynthCmd.processBuf 3] =
      StringSynth.runCmds { StringSynth.new 500 with rng := 0xdeadbeef }
        [SynthCmd.tune 441, SynthCmd.trigger, SynthCmd.processBuf 3] :=
  string_synth_deterministic 500 0xdeadbeef 0xdeadbeef
    [SynthCmd.tune 441, SynthCmd.trigger, SynthCmd.processBuf 3]
    [SynthCmd.tune 441, SynthCmd.trigger, SynthCmd.processBuf 3] rfl rfl

/-! ## Claim C8 -/

/-- Claim C8 (confirmed): on every 3-byte message, parse_midi reads the high
nibble of byte 0 as the command and the low nibble as the channel, and
returns an event exactly for commands 0x8 (note-off/Up), 0x9 (note-on/Down)
and 0xA (key-pressure), carrying the given timestamp, the channel, and
bytes 1/2 as note/velocity or key/pressure; every other command yields
None, never an error. -/
theorem parse_midi_three_bytes (ts b0 b1 b2 : ℕ)
    (_h0 : b0 < 256) (_h1 : b1 < 256) (_h2 : b2 < 256) :
    parseMidi ts [b0, b1, b2] =
      Except.ok (
        if (b0 &&& 0xf0) >>> 4 = 8 then
          some ⟨ts, b0 &&& 0xf, MidiEventInner.Up b2 b1⟩
        else if (b0 &&& 0xf0) >>> 4 = 9 then
          some ⟨ts, b0 &&& 0xf, MidiEventInner.Down b2 b1⟩
        else if (b0 &&& 0xf0) >>> 4 = 10 then
          some ⟨ts, b0 &&& 0xf, MidiEventInner.KeyPressure b1 b2⟩
        else none) := by
  simp only [parseMidi, List.get?]
  split_ifs <;> rfl

/-- Witness for C8: a note-on message on channel 0. -/
theorem parse_midi_three_bytes_witness :
    parseMidi 7 [144, 60, 100] =
      Except.ok (some ⟨7, 0, MidiEventInner.Down 100 60⟩) := by
  rw [parse_midi_three_bytes 7 144 60 100 (by norm_num) (by norm_num) (by norm_num)]
  rfl

/-! ## Claim C10 -/

/-- Claim C10 (confirmed): parse_midi panics (out-of-bounds index) on the
empty message and on every message shorter than 3 bytes whose first byte
has command nibble 0x8, 0x9 or 0xA, instead of returning None; on messages
of length at least 3 it never panics. -/
theorem parse_midi_short_panics :
    (∀ ts : ℕ, parseMidi ts [] = Except.error ())
    ∧ (∀ (ts : ℕ) (midi : List ℕ), midi.length < 3 → midi ≠ [] →
        ((midi.headD 0 &&& 0xf0) >>> 4 = 8 ∨ (midi.headD 0 &&& 0xf0) >>> 4 = 9 ∨
          (midi.headD 0 &&& 0xf0) >>> 4 = 10) →
        parseMidi ts midi = Except.error ())
    ∧ (∀ (ts : ℕ) (midi : List ℕ), 3 ≤ midi.length →
        parseMidi ts midi ≠ Except.error ()) := by
  refine ⟨fun ts => rfl, ?_, ?_⟩
  · intro ts midi hlen hne hcmd
    match midi with
    | [] => exact absurd rfl hne
    | [a] =>
      rcases hcmd with h | h | h <;>
        simp only [List.headD] at h <;> simp [parseMidi, h]
    | [a, b] =>
      rcases hcmd with h | h | h <;>
        simp only [List.headD] at h <;> simp [parseMidi, h]
    | a :: b :: c :: rest =>
      simp only [List.length_cons] at hlen
      omega
  · intro ts midi hlen
    match midi with
    | [] => simp at hlen
    | [a] => simp at hlen
    | [a, b] => simp at hlen
    | a :: b :: c :: rest =>
      simp only [parseMidi, List.get?]
      split_ifs <;> simp

/-- Witness for C10: a 1-byte note-on prefix panics. -/
theorem parse_midi_short_panics_witness :
    parseMidi 0 [144] = Except.error () :=
  parse_midi_short_panics.2.1 0 [144] (by norm_num) (by simp)
    (Or.inr (Or.inl (by decide)))

/-! ## Claim C4 -/

/-- Claim C4 (counterexample): the FIR built from the constant-unity response
curve H(x) = 1 with T = 1 tap maps the sample 0 to
(1/3) * (1 + 2 * cos 0) = 1, not to 0: it is not the identity filter,
within any tolerance below 1. -/
theorem fir_unity_not_identity :
    FIR.processList (FIR.new 1 (fun _ => 1)) [0] = [1] ∧ ([1] : List ℝ) ≠ [0] := by
  constructor
  · simp only [FIR.processList, FIR.new, List.map_cons, List.map_nil, FIR.processSample,
      List.map_map, Function.comp_def, mul_zero, Real.cos_zero, mul_one, one_mul]
    rw [List.map_const', List.length_range, List.sum_replicate, nsmul_eq_mul, mul_one]
    norm_num
  · simp

/-- Claim C4 (corrected): for every tap count T ≥ 1 the FIR built from the
constant-unity response curve is not the identity: its per-sample output is
(1/M) * (1 + 2 * Σ cos(omega_k * x)) with M = 2T + 1, which at the input
sample 0 evaluates to (1 + 2T) / M = 1 rather than 0. -/
theorem fir_unity_maps_zero_to_one (T : ℕ) (h : 1 ≤ T) :
    FIR.processList (FIR.new T (fun _ => 1)) [0] = [1] := by
  simp only [FIR.processList, FIR.new, List.map_cons, List.map_nil, FIR.processSample,
    List.map_map, Function.comp_def, mul_zero, Real.cos_zero, mul_one, one_mul]
  rw [List.map_const', List.length_range, List.sum_replicate, nsmul_eq_mul, mul_one]
  have hM : ((T * 2 + 1 : ℕ) : ℝ) = 2 * (T : ℝ) + 1 := by push_cast; ring
  rw [hM]
  have hne : (2 * (T : ℝ) + 1) ≠ 0 := by positivity
  rw [List.cons.injEq]
  refine ⟨?_, rfl⟩
  field_simp
  ring

/-- Witness for C4's corrected theorem at T = 1. -/
theorem fir_unity_maps_zero_to_one_witness :
    FIR.processList (FIR.new 1 (fun _ => 1)) [0] = [1] :=
  fir_unity_maps_zero_to_one 1 (by norm_num)

/-! ## Claim C7 -/

theorem pitchFactor_zero : Note.pitchFactor 0 = 1 := by
  simp [Note.pitchFactor, Real.rpow_natCast]

/-- Bounds on the equal-temperament semitone factor 2^(1/12). -/
theorem twelfth_root_two_bounds :
    (1.05 : ℝ) < (2 : ℝ) ^ ((1 : ℝ) / 12) ∧ (2 : ℝ) ^ ((1 : ℝ) / 12) < 1.06 := by
  have hr0 : (0 : ℝ) < (2 : ℝ) ^ ((1 : ℝ) / 12) :=
    Real.rpow_pos_of_pos (by norm_num) _
  have h12 : ((2 : ℝ) ^ ((1 : ℝ) / 12)) ^ (12 : ℕ) = 2 := by
    rw [← Real.rpow_natCast ((2 : ℝ) ^ ((1 : ℝ) / 12)) 12,
      ← Real.rpow_mul (by norm_num : (0 : ℝ) ≤ 2)]
    norm_num
  constructor
  · apply lt_of_pow_lt_pow_left₀ 12 (le_of_lt hr0)
    rw [h12]
    norm_num
  · apply lt_of_pow_lt_pow_left₀ 12 (by norm_num : (0 : ℝ) ≤ (1.06 : ℝ))
    rw [h12]
    norm_num

theorem note_freq_A0 : Note.freq 0 0 = 27.5 := by
  rw [Note.freq, pitchFactor_zero]
  rw [show ((0 : ℕ) : ℝ) - 4 = ((-4 : ℤ) : ℝ) by norm_num, Real.rpow_intCast]
  norm_num

theorem note_freq_A4 : Note.freq 0 4 = 440 := by
  rw [Note.freq, pitchFactor_zero]
  rw [show ((4 : ℕ) : ℝ) - 4 = 0 by norm_num, Real.rpow_zero]
  norm_num

theorem note_freq_As0 : Note.freq 1 0 = 27.5 * ((2 : ℝ) ^ ((1 : ℝ) / 12)) := by
  rw [Note.freq, Note.pitchFactor]
  rw [show ((0 : ℕ) : ℝ) - 4 = ((-4 : ℤ) : ℝ) by norm_num, Real.rpow_intCast]
  rw [show ((1 : ℕ) : ℝ) = (1 : ℝ) by norm_num, Real.rpow_one]
  have h4 : (2 : ℝ) ^ (-4 : ℤ) = 1 / 16 := by norm_num
  rw [h4]
  ring

/-- Claim C7 (confirmed): midi_note_to_freq maps note 69 to 440 Hz, note 21
to 27.5 Hz and note 22 to 29.14 Hz, each within 1 Hz, and every note number
below 21 is clamped to the note-21 reference frequency 27.5 Hz. -/
theorem midi_note_to_freq_spec :
    |midiNoteToFreq 69 - 440| < 1 ∧
    |midiNoteToFreq 21 - 27.5| < 1 ∧
    |midiNoteToFreq 22 - 29.14| < 1 ∧
    (∀ n : ℕ, n < 21 → midiNoteToFreq n = 27.5) := by
  have h69 : midiNoteToFreq 69 = Note.freq 0 4 := by
    rw [midiNoteToFreq, if_neg (by omega)]
  have h21 : midiNoteToFreq 21 = Note.freq 0 0 := by
    rw [midiNoteToFreq, if_pos (by omega)]
  have h22 : midiNoteToFreq 22 = Note.freq 1 0 := by
    rw [midiNoteToFreq, if_neg (by omega)]
  obtain ⟨hlo, hhi⟩ := twelfth_root_two_bounds
  refine ⟨?_, ?_, ?_, ?_⟩
  · rw [h69, note_freq_A4]
    norm_num
  · rw [h21, note_freq_A0]
    norm_num
  · rw [h22, note_freq_As0, abs_lt]
    constructor <;> nlinarith
  · intro n hn
    rw [midiNoteToFreq, if_pos (by omega)]
    exact note_freq_A0

/-- Witness for C7's clamping conjunct at note 5. -/
theorem midi_note_to_freq_spec_witness : midiNoteToFreq 5 = 27.5 :=
  midi_note_to_freq_spec.2.2.2 5 (by norm_num)
